import Mathlib

/-!
Verification of the wasm-runtime host/guest marshaling layer.

This file shallowly embeds the Go source of the runtime (memory segment
reads, the AssemblyScript string codec, the arena allocator `AscHeap`,
the parameter conversion `toWASMValue`, and the host intrinsics
`env.abort` and `index.log.log`) and proves or refutes the behavioural
claims of the specification.

Modelling conventions:
- guest memory is a `List Nat` of byte values (each `< 256` by
  construction wherever the code writes them);
- Go `int32` values are `Int`s, with `wrap32` applied exactly where the
  Go code performs 32-bit arithmetic or conversions;
- fallible Go code returns `Outcome α`: `ok`, a structured error `err`
  (mirroring the `fmt.Errorf` productions, with `WErr.wrap` for each
  `%w`-wrapping site), or `panic` for Go runtime panics and explicit
  `panic(...)` calls (the panic kind records which source panic fired).
-/

namespace WasmRuntime

/-- Two's-complement wrap of an integer into the `int32` range,
modelling Go `int32` conversions and arithmetic overflow. -/
def wrap32 (x : Int) : Int := (x + 2 ^ 31) % 2 ^ 32 - 2 ^ 31

/-- Little-endian 4-byte encoding of a `uint32` value, as produced by
`encoding.PutUint32` in `AscString.ToPtr` / `AscBytes.ToPtr`. -/
def le32 (v : Nat) : List Nat :=
  [v % 256, v / 256 % 256, v / 65536 % 256, v / 16777216 % 256]

/-- Little-endian recomposition of a byte list, as `encoding.Uint32` /
`encoding.Uint64` read it (only the first bytes are used by callers,
which always pass exact-width segments). -/
def leUint : List Nat → Nat
  | [] => 0
  | b :: bs => b % 256 + 256 * leUint bs

/-- `int32(len(bytes))`: the guest memory length as the Go code sees it
after conversion to `int32`. -/
def intLen (mem : List Nat) : Int := wrap32 mem.length

/-- `(mem.drop off).take n`: the `n` bytes of `mem` starting at `off`. -/
def extract (mem : List Nat) (off n : Nat) : List Nat := (mem.drop off).take n

/-- Go `copy(dst[start:], src)`: overwrite `dst` from index `start` with
`src`, truncating `src` to the space available (Go `copy` copies
`min(len(dst)-start, len(src))` bytes). -/
def listCopy (dst : List Nat) (start : Nat) (src : List Nat) : List Nat :=
  dst.take start ++ src.take (dst.length - start) ++ dst.drop (start + src.length)

/-- The structured errors produced by the runtime: the three bounds
errors of `DefaultEnvironment.segment`, the guest-abort error of the
`env.abort` intrinsic, and `wrap ctx e` for each
`fmt.Errorf("ctx: %w", e)` wrapping site. -/
inductive WErr where
  | offsetNegative (offset : Int)
  | offsetOutOfBounds (offset : Int) (memLen : Nat)
  | endOutOfBounds (endOffset : Int) (memLen : Nat)
  | abortErr (message filename : String) (line column : Int)
  | wrap (context : String) (inner : WErr)
  deriving DecidableEq, Repr

/-- Go panics reachable in the embedded code: runtime slice-bounds
panics, `make` with a negative length, calling a nil allocator
function, and the three explicit `panic(...)` calls of the source. -/
inductive PanicKind where
  | sliceBounds
  | makeSliceNegative
  | nilFunction
  | allocFailed
  | memoryGrowFailed
  | unhandledType (typeName : String)
  deriving DecidableEq, Repr

/-- Result of running a piece of the embedded Go code: a value, an
error return, or a Go panic. -/
inductive Outcome (α : Type) where
  | ok (value : α)
  | err (e : WErr)
  | panic (k : PanicKind)
  deriving DecidableEq, Repr

/-- `true` exactly on the `err` outcome (an error return, as opposed to
success or a panic). -/
def Outcome.isErrB : Outcome α → Bool
  | .err _ => true
  | _ => false

/-- Go slice expression `bytes[lo:hi]`: requires `0 ≤ lo ≤ hi ≤ len`,
otherwise the Go runtime panics. -/
def goSlice (mem : List Nat) (lo hi : Int) : Outcome (List Nat) :=
  if 0 ≤ lo ∧ lo ≤ hi ∧ hi ≤ (mem.length : Int) then
    .ok (extract mem lo.toNat (hi - lo).toNat)
  else .panic .sliceBounds

/-- `DefaultEnvironment.segment(offset, length)` (runtime.go:72): the
three bounds checks, then the slice `bytes[offset : offset+length]`.
`end` is computed in `int32` arithmetic, so it wraps on overflow. -/
def segment (mem : List Nat) (offset length : Int) : Outcome (List Nat) :=
  if offset < 0 then .err (.offsetNegative offset)
  else if intLen mem ≤ offset then .err (.offsetOutOfBounds offset mem.length)
  else
    let endOff := wrap32 (offset + length)
    if intLen mem < endOff then .err (.endOutOfBounds endOff mem.length)
    else goSlice mem offset endOff

/-- `DefaultEnvironment.readI32` (runtime.go:228): a 4-byte segment read
reinterpreted as a little-endian `int32`. The segment error is returned
unwrapped (`return 0, err`). -/
def readI32 (mem : List Nat) (offset : Int) : Outcome Int :=
  match segment mem offset 4 with
  | .ok bs => .ok (wrap32 (leUint bs))
  | .err e => .err e
  | .panic k => .panic k

/-- `DefaultEnvironment.readI64` (runtime.go:258): an 8-byte segment
read reinterpreted as a little-endian `int64` (the value itself is not
used by any caller in the source; only success/failure matters). -/
def readI64 (mem : List Nat) (offset : Int) : Outcome Int :=
  match segment mem offset 8 with
  | .ok bs => .ok (leUint bs)
  | .err e => .err e
  | .panic k => .panic k

/-- One step of Go `utf16.Encode` on a Unicode scalar value: BMP code
points are single code units, code points above `0xFFFF` become a
surrogate pair.  (Go also maps invalid runes to `0xFFFD`, but Lean
`Char`s are always valid scalar values, so that branch is dead here.) -/
def utf16EncodeChar (c : Nat) : List Nat :=
  if c < 65536 then [c]
  else [55296 + (c - 65536) / 1024, 56320 + (c - 65536) % 1024]

/-- `utf16.Encode([]rune(h))`: the UTF-16 code units of a string. -/
def codeUnits : List Char → List Nat
  | [] => []
  | c :: cs => utf16EncodeChar c.toNat ++ codeUnits cs

/-- The byte pairs written for each code unit in `AscString.ToPtr`:
`stringBytes[2i] = byte(b & 0xFF)`, `stringBytes[2i+1] = byte(b >> 8)`. -/
def unitBytes : List Nat → List Nat
  | [] => []
  | u :: us => u % 256 :: u / 256 % 256 :: unitBytes us

/-- The UTF-8 byte size of one Unicode scalar value (what Go `len` adds
per rune of a string). -/
def utf8Size (c : Nat) : Nat :=
  if c < 128 then 1 else if c < 2048 then 2 else if c < 65536 then 3 else 4

/-- Go `len(h)` for a string `h`: its UTF-8 byte length. -/
def goStrLen (s : String) : Nat :=
  (s.data.map fun c => utf8Size c.toNat).sum

/-- The byte buffer built by `AscString.ToPtr` (runtime.go:485) before it
is handed to `AscHeap.Write`: a buffer of `4 + len(h)*2` zero bytes, the
little-endian `uint32(len(h))` at offset 0, and the UTF-16 code units as
little-endian byte pairs from offset 4.  Note the length prefix is the
UTF-8 byte count `len(h)`, while the data is UTF-16 code units; the code
units never overflow the buffer because every rune's UTF-8 size is at
least its code-unit count, so the remaining `2*(len(h) - #units)` bytes
stay zero. -/
def ascStringBytes (s : String) : List Nat :=
  le32 (goStrLen s % 2 ^ 32) ++ unitBytes (codeUnits s.data) ++
    List.replicate (goStrLen s * 2 - (unitBytes (codeUnits s.data)).length) 0

/-- The byte buffer built by `AscBytes.ToPtr` (runtime.go:506): a
little-endian `uint32` length prefix followed by the bytes themselves. -/
def ascBytesEnc (bs : List Nat) : List Nat :=
  le32 (bs.length % 2 ^ 32) ++ bs.map (· % 256)

/-- Go `utf16.Decode`: BMP non-surrogate units decode to themselves, a
high surrogate followed by a low surrogate decodes to the combined code
point, and any unpaired surrogate becomes `0xFFFD`. -/
def utf16DecodeNats : List Nat → List Nat
  | [] => []
  | [r] =>
    if r < 55296 ∨ 57344 ≤ r then [r] else [65533]
  | r :: r2 :: rest =>
    if r < 55296 ∨ 57344 ≤ r then r :: utf16DecodeNats (r2 :: rest)
    else if r < 56320 ∧ 56320 ≤ r2 ∧ r2 < 57344 then
      (65536 + (r - 55296) * 1024 + (r2 - 56320)) :: utf16DecodeNats rest
    else 65533 :: utf16DecodeNats (r2 :: rest)

/-- `DefaultEnvironment.ReadString` (runtime.go:90): read the 4-byte
length prefix as an `int32` (wrapping the error with "read length"),
read `characterCount*2` bytes from `offset+4` (wrapping the error with
"read content"), then pair consecutive bytes little-endian into UTF-16
code units and decode.  `make([]uint16, characterCount)` panics when
the count is negative; all arithmetic on offsets and the count is
`int32` arithmetic.  (The `LogSegment` call at the top only logs and
cannot fail.) -/
def ReadString (mem : List Nat) (offset : Int) : Outcome String :=
  match readI32 mem offset with
  | .err e => .err (.wrap "read length" e)
  | .panic k => .panic k
  | .ok characterCount =>
    match segment mem (wrap32 (offset + 4)) (wrap32 (characterCount * 2)) with
    | .err e => .err (.wrap "read content" e)
    | .panic k => .panic k
    | .ok bs =>
      if characterCount < 0 then .panic .makeSliceNegative
      else
        let characters := (List.range characterCount.toNat).map fun i =>
          bs.getD (2 * i + 1) 0 % 256 * 256 + bs.getD (2 * i) 0 % 256
        .ok (String.mk ((utf16DecodeNats characters).map Char.ofNat))

/-- `MIN_ARENA_SIZE` (runtime.go:444). -/
def MIN_ARENA_SIZE : Int := 10000

/-- `AscHeap` (runtime.go:437): the guest memory, the optional
guest-exported allocator (`wasmer.NativeFunction`; invoking a nil one
is a Go nil-function panic, and an allocator call may itself return an
error), the arena cursor and the remaining free size.  The allocator is
modelled as a pure function from the requested size to either an error
or the returned pointer. -/
structure AscHeap where
  mem : List Nat
  allocator : Option (Int → Except Unit Int)
  arenaStartPtr : Int
  arenaFreeSize : Int

/-- `AscHeap.Write` (runtime.go:446).  If the request exceeds the free
size, call the allocator with `max(size, MIN_ARENA_SIZE)` (panicking if
the allocator is nil or returns an error, as the source does) and reset
the arena to the returned pointer.  Then `copy(memoryData[ptr:], bytes)`
(a Go panic if `ptr` is outside the memory; `copy` truncates to the
available space), advance the cursor by `int32(size)` and decrement the
free size.  Returns the pre-copy pointer, the new heap, and the list of
allocator invocations (with their argument) made during the call. -/
def AscHeap.Write (h : AscHeap) (bytes : List Nat) : Outcome (Int × AscHeap × List Int) :=
  let size : Int := bytes.length
  let grown : Outcome (AscHeap × List Int) :=
    if h.arenaFreeSize < size then
      let newSize := if size < MIN_ARENA_SIZE then MIN_ARENA_SIZE else size
      match h.allocator with
      | none => .panic .nilFunction
      | some alloc =>
        match alloc (wrap32 newSize) with
        | .error _ => .panic .allocFailed
        | .ok result =>
          .ok ({ h with arenaStartPtr := result, arenaFreeSize := newSize }, [wrap32 newSize])
    else .ok (h, [])
  match grown with
  | .err e => .err e
  | .panic k => .panic k
  | .ok (h1, calls) =>
    let ptr := h1.arenaStartPtr
    if ptr < 0 ∨ (h1.mem.length : Int) < ptr then .panic .sliceBounds
    else
      .ok (ptr,
        { h1 with
          mem := listCopy h1.mem ptr.toNat bytes
          arenaStartPtr := wrap32 (ptr + size)
          arenaFreeSize := h1.arenaFreeSize - size },
        calls)

/-- A sequence of `AscHeap.Write` calls, returning the pointers each
call returned and the final heap (allocator-call lists are dropped). -/
def writeSeq (h : AscHeap) : List (List Nat) → Outcome (List Int × AscHeap)
  | [] => .ok ([], h)
  | bs :: rest =>
    match h.Write bs with
    | .err e => .err e
    | .panic k => .panic k
    | .ok (ptr, h1, _) =>
      match writeSeq h1 rest with
      | .err e => .err e
      | .panic k => .panic k
      | .ok (ptrs, h2) => .ok (ptr :: ptrs, h2)

/-- The memory contents after copying each buffer of `ws` in turn at
consecutive offsets starting from `p` (the pure effect of an
in-capacity `writeSeq`). -/
def writeAll (mem : List Nat) (p : Nat) : List (List Nat) → List Nat
  | [] => mem
  | b :: rest => writeAll (listCopy mem p b) (p + b.length) rest

/-- The pointers an in-capacity `writeSeq` starting at cursor `p`
returns: `p`, `p + |ws₀|`, `p + |ws₀| + |ws₁|`, …. -/
def arenaOffsets (p : Int) : List (List Nat) → List Int
  | [] => []
  | b :: rest => p :: arenaOffsets (p + b.length) rest

/-- Total byte size of a sequence of write requests. -/
def totalSize (ws : List (List Nat)) : Nat := (ws.map List.length).sum

/-- The `AscHeap` of the memory-grow variant (src/unnamed/part_001:117):
no allocator; on exhaustion it grows the wasm memory itself by whole
64KiB pages.  `growSucceeds` models whether `memory.Grow` succeeds. -/
structure AscHeapG where
  mem : List Nat
  growSucceeds : Bool
  nextPtrLocation : Int
  freeSpace : Nat

/-- `AscHeap.Write`, memory-grow variant (src/unnamed/part_001:134): if
the request exceeds `freeSpace`, grow the memory by
`size/WasmPageSize + 1` pages — `panic("couldn't grow memory")` when
growth fails — then copy at the cursor and advance. -/
def AscHeapG.Write (h : AscHeapG) (bytes : List Nat) : Outcome (Int × AscHeapG) :=
  let size := bytes.length
  let grown : Outcome AscHeapG :=
    if h.freeSpace < size then
      let numberOfPages := size / 65536 + 1
      if h.growSucceeds then
        .ok { h with
          mem := h.mem ++ List.replicate (numberOfPages * 65536) 0
          freeSpace := h.freeSpace + 65536 * numberOfPages }
      else .panic .memoryGrowFailed
    else .ok h
  match grown with
  | .err e => .err e
  | .panic k => .panic k
  | .ok h1 =>
    let ptr := h1.nextPtrLocation
    if ptr < 0 ∨ (h1.mem.length : Int) < ptr then .panic .sliceBounds
    else
      .ok (ptr,
        { h1 with
          mem := listCopy h1.mem ptr.toNat bytes
          nextPtrLocation := wrap32 (ptr + size)
          freeSpace := h1.freeSpace - size })

/-- `AscString.ToPtr` (runtime.go:485): build the length-prefixed UTF-16
buffer and write it to the arena, returning the pointer and
`int32(size)` where `size = 4 + len(h)*2`. -/
def ascStringToPtr (h : AscHeap) (s : String) : Outcome ((Int × Int) × AscHeap × List Int) :=
  match h.Write (ascStringBytes s) with
  | .err e => .err e
  | .panic k => .panic k
  | .ok (ptr, h1, calls) => .ok ((ptr, wrap32 (4 + goStrLen s * 2)), h1, calls)

/-- `AscBytes.ToPtr` (runtime.go:506): build the length-prefixed byte
buffer and write it to the arena, returning the pointer and
`int32(size)` where `size = 4 + len(h)`. -/
def ascBytesToPtr (h : AscHeap) (bs : List Nat) : Outcome ((Int × Int) × AscHeap × List Int) :=
  match h.Write (ascBytesEnc bs) with
  | .err e => .err e
  | .panic k => .panic k
  | .ok (ptr, h1, calls) => .ok ((ptr, wrap32 (4 + bs.length)), h1, calls)

/-- A Go native value handed to `toWASMValue` (an `interface{}`): one
constructor per `case` of the type switch, with float payloads kept as
opaque bit patterns (the code passes them through untouched), plus
`other` for every remaining dynamic type (carrying its type name). -/
inductive GoValue where
  | bool (b : Bool)
  | int8 (v : Int)
  | uint8 (v : Nat)
  | int16 (v : Int)
  | uint16 (v : Nat)
  | int32 (v : Int)
  | uint32 (v : Nat)
  | int64 (v : Int)
  | uint64 (v : Nat)
  | int (v : Int)
  | uint (v : Nat)
  | float32 (bits : Nat)
  | float64 (bits : Nat)
  | bytes (bs : List Nat)
  | string (s : String)
  | other (typeName : String)
  deriving DecidableEq, Repr

/-- The value `toWASMValue` returns (an `interface{}` holding one of
`int32`, `int64`, `uint64`, `float32`, `float64`, `AscBytes`,
`AscString`). -/
inductive WasmValue where
  | i32 (v : Int)
  | i64 (v : Int)
  | u64 (v : Nat)
  | f32 (bits : Nat)
  | f64 (bits : Nat)
  | ascBytes (bs : List Nat)
  | ascString (s : String)
  deriving DecidableEq, Repr

/-- `toWASMValue` (runtime.go:564): the parameter-conversion type
switch.  Conversions to `int32` wrap where the Go conversion can
(uint32, int, uint); int8/uint8/int16/uint16 conversions are
value-preserving on their ranges; the default case is
`panic(fmt.Errorf("unhandled type %T to WASM"))`. -/
def toWASMValue : GoValue → Outcome WasmValue
  | .bool b => .ok (.i32 (if b then 1 else 0))
  | .int8 v => .ok (.i32 v)
  | .uint8 v => .ok (.i32 v)
  | .int16 v => .ok (.i32 v)
  | .uint16 v => .ok (.i32 v)
  | .int32 v => .ok (.i32 v)
  | .uint32 v => .ok (.i32 (wrap32 v))
  | .int64 v => .ok (.i64 v)
  | .uint64 v => .ok (.u64 v)
  | .int v => .ok (.i32 (wrap32 v))
  | .uint v => .ok (.i32 (wrap32 v))
  | .float32 bits => .ok (.f32 bits)
  | .float64 bits => .ok (.f64 bits)
  | .bytes bs => .ok (.ascBytes bs)
  | .string s => .ok (.ascString s)
  | .other t => .panic (.unhandledType t)

/-- A value recorded in a `CallRecord.params` list (`[]interface{}`
holding `int32`s and strings in the recorded intrinsics). -/
inductive PVal where
  | i (v : Int)
  | s (v : String)
  deriving DecidableEq, Repr

/-- `CallRecord` as the spec names it: the arguments of one
`CallRecorder.Record` invocation (runtime.go:41). -/
structure CallRecord where
  module : String
  function : String
  params : List PVal
  returnValue : Option PVal
  deriving DecidableEq, Repr

/-- `DefaultEnvironment.RecordCall` (runtime.go:274): append one record
to the recorder when one is configured (`CallRecorder != nil`), do
nothing otherwise.  The recorder is modelled as its list of records. -/
def RecordCall (recorder : Option (List CallRecord)) (module function : String)
    (params : List PVal) (returns : Option PVal) : Option (List CallRecord) :=
  match recorder with
  | none => none
  | some records => some (records ++ [⟨module, function, params, returns⟩])

/-- The `env.abort` intrinsic (intrinsics.go:78): decode the message and
filename pointers via `ReadString` (wrapping failures with
"read message argument" / "read filename argument"), then return the
`abortError{message, filename, line, column}` as the call's error. -/
def envAbort (mem : List Nat) (msgPtr filePtr line column : Int) : Outcome (List Int) :=
  match ReadString mem msgPtr with
  | .err e => .err (.wrap "read message argument" e)
  | .panic k => .panic k
  | .ok message =>
    match ReadString mem filePtr with
    | .err e => .err (.wrap "read filename argument" e)
    | .panic k => .panic k
    | .ok filename => .err (.abortErr message filename line column)

/-- The `index.log.log` intrinsic (intrinsics.go:116): decode the
message pointer via `ReadString` (wrapping failure with
"read message argument"), then `RecordCall("index", "log.log",
[level, message], nil)` and return no values.  The second component of
the result is the list of `RecordCall` invocations the call made. -/
def indexLogLog (mem : List Nat) (level msgPtr : Int) : Outcome (List Int × List CallRecord) :=
  match ReadString mem msgPtr with
  | .err e => .err (.wrap "read message argument" e)
  | .panic k => .panic k
  | .ok message => .ok ([], [⟨"index", "log.log", [.i level, .s message], none⟩])

/-- The element loop of `ReadI32s` (runtime.go:182): read a 4-byte
element at `indicesOffset + i*4` for each `i < length`, wrapping a
failure with "read i32 array index #i".  `i` counts from `start` with
`n` iterations remaining. -/
def readI32Elems (mem : List Nat) (indicesOffset : Int) : Nat → Nat → Outcome (List Int)
  | _, 0 => .ok []
  | i, n + 1 =>
    match readI32 mem (wrap32 (indicesOffset + 4 * i)) with
    | .err e => .err (.wrap ("read i32 array index #" ++ toString i) e)
    | .panic k => .panic k
    | .ok v =>
      match readI32Elems mem indicesOffset (i + 1) n with
      | .err e => .err e
      | .panic k => .panic k
      | .ok vs => .ok (v :: vs)

/-- `DefaultEnvironment.ReadI32s` (runtime.go:161): read the array
offset and length (wrapping failures with "read i32 array offset" /
"read i32 array length"), then perform the 8-byte read at the decoded
array offset — whose error is assigned to `err` but never checked, so
it is silently discarded (only a Go panic inside it would propagate) —
then `make([]int32, length)` (a panic when `length < 0`) and the
element loop from `arrayOffset + 8`. -/
def ReadI32s (mem : List Nat) (offset : Int) : Outcome (List Int) :=
  match readI32 mem offset with
  | .err e => .err (.wrap "read i32 array offset" e)
  | .panic k => .panic k
  | .ok arrayOffset =>
    match readI32 mem (wrap32 (offset + 4)) with
    | .err e => .err (.wrap "read i32 array length" e)
    | .panic k => .panic k
    | .ok length =>
      match readI64 mem arrayOffset with
      | .panic k => .panic k
      | _ =>
        if length < 0 then .panic .makeSliceNegative
        else readI32Elems mem (wrap32 (arrayOffset + 8)) 0 length.toNat

/-- The element loop of `ReadStrings` (runtime.go:213): read the string
offset at `indicesOffset + i*4` (wrapping failure with "read string
array index #i offset"), then decode the string there via `ReadString`
(wrapping failure with "read string array index #i"). -/
def readStringElems (mem : List Nat) (indicesOffset : Int) : Nat → Nat → Outcome (List String)
  | _, 0 => .ok []
  | i, n + 1 =>
    match readI32 mem (wrap32 (indicesOffset + 4 * i)) with
    | .err e => .err (.wrap ("read string array index #" ++ toString i ++ " offset") e)
    | .panic k => .panic k
    | .ok stringOffset =>
      match ReadString mem stringOffset with
      | .err e => .err (.wrap ("read string array index #" ++ toString i) e)
      | .panic k => .panic k
      | .ok s =>
        match readStringElems mem indicesOffset (i + 1) n with
        | .err e => .err e
        | .panic k => .panic k
        | .ok ss => .ok (s :: ss)

/-- `DefaultEnvironment.ReadStrings` (runtime.go:192): same structure as
`ReadI32s` — including the discarded error of the 8-byte read at the
decoded array offset — with string elements. -/
def ReadStrings (mem : List Nat) (offset : Int) : Outcome (List String) :=
  match readI32 mem offset with
  | .err e => .err (.wrap "read string array offset" e)
  | .panic k => .panic k
  | .ok arrayOffset =>
    match readI32 mem (wrap32 (offset + 4)) with
    | .err e => .err (.wrap "read string array length" e)
    | .panic k => .panic k
    | .ok length =>
      match readI64 mem arrayOffset with
      | .panic k => .panic k
      | _ =>
        if length < 0 then .panic .makeSliceNegative
        else readStringElems mem (wrap32 (arrayOffset + 8)) 0 length.toNat

/-- Total byte size of the first `i` write requests of a sequence. -/
def sumTake : List (List Nat) → Nat → Nat
  | _, 0 => 0
  | [], _ + 1 => 0
  | b :: rest, i + 1 => b.length + sumTake rest i

section Lemmas

/-- `wrap32` is the identity on the `int32` range. -/
theorem wrap32_eq_self {x : Int} (h1 : -2 ^ 31 ≤ x) (h2 : x < 2 ^ 31) : wrap32 x = x := by
  unfold wrap32
  omega

/-- For memories below 2³¹ bytes, `int32(len(bytes))` is the length. -/
theorem intLen_eq {mem : List Nat} (h : (mem.length : Int) < 2 ^ 31) :
    intLen mem = (mem.length : Int) := by
  unfold intLen
  exact wrap32_eq_self (by omega) h

/-- `encoding.Uint32` inverts `encoding.PutUint32`. -/
theorem leUint_le32 (v : Nat) : leUint (le32 v) = v % 2 ^ 32 := by
  simp only [le32, leUint]
  omega

end Lemmas

section C2

/-- C2 (counterexample): the claim "readSegment fails with a BoundsError
exactly when offset < 0, or offset >= bufferLength, or offset + length >
bufferLength" fails at buffer length 10, offset 1, length 2147483647
(a non-negative `int32`): mathematically `1 + 2147483647 > 10`, so the
claim demands a BoundsError, but `end := offset + length` wraps to
`-2^31` in `int32` arithmetic, every bounds check passes, and the slice
expression `bytes[1 : -2^31]` panics in the Go runtime instead. -/
theorem C2_counterexample :
    segment (List.replicate 10 0) 1 2147483647 = .panic .sliceBounds ∧
    (segment (List.replicate 10 0) 1 2147483647).isErrB = false := by
  decide

/-- C2 (amended): provided `offset + length` does not overflow `int32`,
`segment` fails with a bounds error exactly when `offset < 0`, or
`offset >= bufferLength`, or `offset + length > bufferLength`, and
otherwise succeeds returning exactly `length` bytes starting at
`offset`.  (`segment` never writes: the buffer is returned untouched by
construction, so failure leaves it unmodified with no partial read.) -/
theorem C2_amended (mem : List Nat) (offset length : Int)
    (hL : (mem.length : Int) < 2 ^ 31)
    (hlen0 : 0 ≤ length)
    (hoff : -2 ^ 31 ≤ offset)
    (hnov : offset + length < 2 ^ 31) :
    ((segment mem offset length).isErrB = true ↔
      (offset < 0 ∨ (mem.length : Int) ≤ offset ∨ (mem.length : Int) < offset + length)) ∧
    (¬(offset < 0 ∨ (mem.length : Int) ≤ offset ∨ (mem.length : Int) < offset + length) →
      segment mem offset length = .ok (extract mem offset.toNat length.toNat) ∧
      (extract mem offset.toNat length.toNat).length = length.toNat) := by
  have hIL := intLen_eq hL
  by_cases h1 : offset < 0
  · constructor
    · simp [segment, h1, Outcome.isErrB]
    · intro h
      exact absurd (Or.inl h1) h
  · push_neg at h1
    by_cases h2 : (mem.length : Int) ≤ offset
    · constructor
      · simp [segment, hIL, h1.not_lt, h2, Outcome.isErrB]
      · intro h
        exact absurd (Or.inr (Or.inl h2)) h
    · push_neg at h2
      have hend : wrap32 (offset + length) = offset + length :=
        wrap32_eq_self (by omega) hnov
      by_cases h3 : (mem.length : Int) < offset + length
      · constructor
        · simp [segment, hIL, h1.not_lt, h2.not_le, hend, h3, Outcome.isErrB]
        · intro h
          exact absurd (Or.inr (Or.inr h3)) h
      · push_neg at h3
        have hok : segment mem offset length =
            .ok (extract mem offset.toNat (offset + length - offset).toNat) := by
          simp [segment, hIL, h1.not_lt, h2.not_le, hend, h3.not_lt, goSlice, h1,
            le_add_of_nonneg_right hlen0, h3]
        constructor
        · rw [hok]
          simp [Outcome.isErrB]
          omega
        · intro _
          have harith : offset + length - offset = length := by ring
          rw [harith] at hok
          refine ⟨hok, ?_⟩
          simp [extract, List.length_take, List.length_drop]
          omega

/-- C2 (witness): the amended theorem at buffer `[7,8,9]`, offset 1,
length 2: an in-bounds read returning exactly the two bytes at
offset 1. -/
theorem C2_amended_witness : segment [7, 8, 9] 1 2 = .ok [8, 9] := by
  have h := (C2_amended [7, 8, 9] 1 2 (by norm_num) (by norm_num) (by norm_num)
    (by norm_num)).2 (by norm_num)
  rw [h.1]
  decide

end C2

section C10

/-- C10: the bounds checks of `segment` constrain only the offset.  For
every memory state (below 2³¹ bytes) and every valid offset
`0 ≤ offset < bufferLength`, a negative length passes all three bounds
checks and does not produce a bounds error — the call is a Go runtime
slice panic instead, so `segment` is total only under the unchecked
precondition `length ≥ 0`.  Consequently `ReadString` on a header whose
stored count field is negative (here any count in `[-2^30, 0)`, whose
doubling stays negative in `int32`) reaches this slice panic rather
than any decode error. -/
theorem C10_negative_length (mem : List Nat) (offset : Int)
    (hL : (mem.length : Int) < 2 ^ 31)
    (h0 : 0 ≤ offset) :
    (∀ length : Int, -2 ^ 31 ≤ length → length < 0 → offset < intLen mem →
      segment mem offset length = .panic .sliceBounds ∧
      (segment mem offset length).isErrB = false) ∧
    (∀ c : Int, readI32 mem offset = .ok c → -2 ^ 30 ≤ c → c < 0 →
      offset + 4 < intLen mem →
      ReadString mem offset = .panic .sliceBounds) := by
  have hIL := intLen_eq hL
  constructor
  · intro length hrange hneg hlt
    have hend : wrap32 (offset + length) = offset + length := by
      apply wrap32_eq_self <;> omega
    have hseg : segment mem offset length = .panic .sliceBounds := by
      rw [hIL] at hlt
      simp [segment, hIL, h0.not_lt, hlt.not_le, hend, goSlice]
      rw [if_neg (by omega), if_neg (by omega)]
    exact ⟨hseg, by rw [hseg]; rfl⟩
  · intro c hc hcr hcneg hofflt
    rw [hIL] at hofflt
    have hoff4 : wrap32 (offset + 4) = offset + 4 := by
      apply wrap32_eq_self <;> omega
    have hcount : wrap32 (c * 2) = c * 2 := by
      apply wrap32_eq_self <;> omega
    have hend : wrap32 (offset + 4 + c * 2) = offset + 4 + c * 2 := by
      apply wrap32_eq_self <;> omega
    have hseg : segment mem (offset + 4) (c * 2) = .panic .sliceBounds := by
      simp [segment, hIL, hofflt.not_le, hend, goSlice]
      rw [if_neg (by omega), if_neg (by omega), if_neg (by omega)]
    simp [ReadString, hc, hoff4, hcount, hseg]

/-- C10 (witness): memory `[255,255,255,255,0,0,0,0]` stores the count
field `-1` at offset 0: `segment` with a valid offset and length `-1`
panics at the slice (and is not a bounds error), and `ReadString` at
offset 0 hits the same panic. -/
theorem C10_negative_length_witness :
    segment [255, 255, 255, 255, 0, 0, 0, 0] 0 (-1) = .panic .sliceBounds ∧
    ReadString [255, 255, 255, 255, 0, 0, 0, 0] 0 = .panic .sliceBounds := by
  have h := C10_negative_length [255, 255, 255, 255, 0, 0, 0, 0] 0 (by norm_num) le_rfl
  refine ⟨(h.1 (-1) (by norm_num) (by norm_num) (by decide)).1, ?_⟩
  exact h.2 (-1) (by decide) (by norm_num) (by norm_num) (by decide)

end C10

section C3

/-- C3: every guest call to `env.abort(msgPtr, filePtr, line, column)`
whose two string decodes succeed returns the `abortError` whose
message, filename, line and column are exactly the decoded guest-memory
contents and the two integer arguments.  (The non-nil error return is
what terminates the in-flight call: the engine propagates a host-import
error as a trap ending the invocation, which is outside this
embedding.) -/
theorem C3_abort (mem : List Nat) (msgPtr filePtr line column : Int) (m f : String)
    (hm : ReadString mem msgPtr = .ok m)
    (hf : ReadString mem filePtr = .ok f) :
    envAbort mem msgPtr filePtr line column = .err (.abortErr m f line column) := by
  simp [envAbort, hm, hf]

/-- C3 (witness): a memory holding the strings "boom" (at 0) and
"file.ts" (at 12); aborting with line 7, column 3 yields exactly that
abort error. -/
theorem C3_abort_witness :
    envAbort (ascStringBytes "boom" ++ ascStringBytes "file.ts") 0 12 7 3 =
      .err (.abortErr "boom" "file.ts" 7 3) :=
  C3_abort (ascStringBytes "boom" ++ ascStringBytes "file.ts") 0 12 7 3 "boom" "file.ts"
    (by decide) (by decide)

end C3

section C4

/-- C4: a single call to the `index.log.log` intrinsic with arguments
`(level, msgPtr)` whose message decode succeeds performs exactly one
`RecordCall` — with module "index", function "log.log", params
`[level, message]` and nil return value — and nothing else; appending
that one record to any recorder state yields exactly one new record.
(The end-to-end scenario — an entry function invoking the import once —
adds only engine-side execution around this single intrinsic call.) -/
theorem C4_logLog (mem : List Nat) (level msgPtr : Int) (m : String)
    (records : List CallRecord)
    (hm : ReadString mem msgPtr = .ok m) :
    indexLogLog mem level msgPtr =
      .ok ([], [⟨"index", "log.log", [.i level, .s m], none⟩]) ∧
    RecordCall (some records) "index" "log.log" [.i level, .s m] none =
      some (records ++ [⟨"index", "log.log", [.i level, .s m], none⟩]) := by
  exact ⟨by simp [indexLogLog, hm], rfl⟩

/-- C4 (witness): the spec's end-to-end message: a guest memory holding
"log error abc - 123" at offset 0, logged at level 1 from a fresh
recorder, produces exactly the one expected record. -/
theorem C4_logLog_witness :
    indexLogLog (ascStringBytes "log error abc - 123") 1 0 =
      .ok ([], [⟨"index", "log.log", [.i 1, .s "log error abc - 123"], none⟩]) ∧
    RecordCall (some []) "index" "log.log" [.i 1, .s "log error abc - 123"] none =
      some [⟨"index", "log.log", [.i 1, .s "log error abc - 123"], none⟩] :=
  C4_logLog (ascStringBytes "log error abc - 123") 1 0 "log error abc - 123" []
    (by decide)

end C4

section C8

/-- C8: the claim says growth failure surfaces to the `Execute` caller
as a structured AllocationError, but the code `panic`s: with an
allocator configured that fails, `AscHeap.Write` hits
`panic(fmt.Errorf("unable to allocate memory: %w", err))`
(runtime.go:456, whose own `//todo: why? pas de panic...` comment and
the commented-out `recover` block in `callFunction` mark the panic as a
slip), and in the memory-grow variant a failed `memory.Grow` hits
`panic("couldn't grow memory")` (src/unnamed/part_001:141).  Neither
panic is recovered, so `Execute` never returns an error value: the
process crashes instead. -/
theorem C8_growth_failure_panics :
    AscHeap.Write ⟨List.replicate 4 0, some fun _ => .error (), 0, 0⟩ [1] =
      .panic .allocFailed ∧
    AscHeapG.Write ⟨List.replicate 4 0, false, 0, 0⟩ [1] =
      .panic .memoryGrowFailed :=
  ⟨rfl, rfl⟩

end C8

section C9

/-- C9 (counterexample): on the 12-byte memory storing array offset 12
and length 0, the 8-byte read at the decoded array offset fails with a
bounds error, yet `ReadI32s` succeeds — the error assigned by
`_, err = e.readI64(...)` is never checked, so a failing inner read is
silently discarded rather than returned. -/
theorem C9_counterexample :
    ReadI32s [12, 0, 0, 0, 0, 0, 0, 0, 0, 0, 0, 0] 0 = .ok [] ∧
    readI64 [12, 0, 0, 0, 0, 0, 0, 0, 0, 0, 0, 0] 12 =
      .err (.offsetOutOfBounds 12 12) := by
  decide

end C9

section ArenaLemmas

/-- Copying within bounds preserves the buffer length. -/
theorem listCopy_length {dst src : List Nat} {s : Nat}
    (hs : s + src.length ≤ dst.length) :
    (listCopy dst s src).length = dst.length := by
  simp [listCopy]
  omega

/-- A within-bounds copy places exactly `src` at offset `s`. -/
theorem extract_listCopy_self {dst src : List Nat} {s : Nat}
    (hs : s + src.length ≤ dst.length) :
    extract (listCopy dst s src) s src.length = src := by
  have h1 : (dst.take s).length = s := by
    simp
    omega
  have h2 : src.take (dst.length - s) = src := by
    apply List.take_of_length_le
    omega
  unfold listCopy extract
  rw [h2, List.append_assoc, List.drop_left' h1, List.take_left' rfl]

/-- A copy at offset `s` leaves every region ending at or before `s`
unchanged. -/
theorem extract_listCopy_of_le {dst src : List Nat} {s a n : Nat}
    (han : a + n ≤ s) (hsL : s ≤ dst.length) :
    extract (listCopy dst s src) a n = extract dst a n := by
  have hdt : ∀ l : List Nat, extract l a n = (l.take (a + n)).drop a := by
    intro l
    rw [List.drop_take]
    simp [extract]
  rw [hdt, hdt]
  congr 1
  have h1 : (dst.take s).length = s := by
    simp
    omega
  unfold listCopy
  rw [List.append_assoc]
  rw [List.take_append_of_le_length (by omega)]
  rw [List.take_take]
  congr 1
  omega

/-- `AscHeap.Write` within free capacity: no allocator call, the bytes
are copied at the cursor, the pre-copy cursor is returned, the cursor
advances by the byte count and the free size shrinks by it. -/
theorem AscHeap.Write_inCapacity (h : AscHeap) (bytes : List Nat)
    (hfree : (bytes.length : Int) ≤ h.arenaFreeSize)
    (h0 : 0 ≤ h.arenaStartPtr)
    (hcap : h.arenaStartPtr + bytes.length ≤ (h.mem.length : Int))
    (hL : (h.mem.length : Int) < 2 ^ 31) :
    h.Write bytes = .ok (h.arenaStartPtr,
      { mem := listCopy h.mem h.arenaStartPtr.toNat bytes
        allocator := h.allocator
        arenaStartPtr := h.arenaStartPtr + bytes.length
        arenaFreeSize := h.arenaFreeSize - bytes.length }, []) := by
  have hw : wrap32 (h.arenaStartPtr + bytes.length) = h.arenaStartPtr + bytes.length := by
    apply wrap32_eq_self <;> omega
  simp [AscHeap.Write, hfree.not_lt, hw]
  constructor <;> omega

end ArenaLemmas

section CodecLemmas

/-- `unitBytes` writes two bytes per code unit. -/
theorem unitBytes_length (us : List Nat) : (unitBytes us).length = 2 * us.length := by
  induction us with
  | nil => rfl
  | cons u us ih =>
    simp [unitBytes, ih]
    omega

/-- Each scalar value's UTF-16 code-unit count is at most its UTF-8
byte size (1 for BMP vs 1–3 bytes; 2 for supplementary vs 4 bytes). -/
theorem utf16EncodeChar_length_le (c : Nat) :
    (utf16EncodeChar c).length ≤ utf8Size c := by
  unfold utf16EncodeChar utf8Size
  split_ifs <;> simp <;> omega

/-- A string has at most `len(h)` (UTF-8 bytes) UTF-16 code units. -/
theorem codeUnits_length_le (cs : List Char) :
    (codeUnits cs).length ≤ (cs.map fun c => utf8Size c.toNat).sum := by
  induction cs with
  | nil => simp [codeUnits]
  | cons c cs ih =>
    simp [codeUnits]
    have := utf16EncodeChar_length_le c.toNat
    omega

/-- The buffer `AscString.ToPtr` builds has size `4 + len(h)*2`. -/
theorem ascStringBytes_length (s : String) :
    (ascStringBytes s).length = 4 + goStrLen s * 2 := by
  have h1 := codeUnits_length_le s.data
  simp [ascStringBytes, le32, unitBytes_length, goStrLen]
  simp [goStrLen] at h1
  omega

/-- The buffer `AscBytes.ToPtr` builds has size `4 + len(h)`. -/
theorem ascBytesEnc_length (bs : List Nat) :
    (ascBytesEnc bs).length = 4 + bs.length := by
  simp [ascBytesEnc, le32]
  omega

end CodecLemmas

section C7

/-- C7: `toWASMValue` maps booleans to Int32 0/1; every signed and
unsigned 8/16/32-bit integer to Int32 (value-preserving on the 8/16-bit
and int32 ranges, bit-pattern-wrapping for uint32); int64 to Int64 and
uint64 through as the same bit pattern; 32/64-bit floats to themselves;
and any other dynamic type fails with the unhandled-type error (the
source delivers it via `panic(fmt.Errorf("unhandled type %T to
WASM"))`).  Byte sequences become `AscBytes` and text `AscString`,
which are staged via an Arena write by their `ToPtr`: given capacity,
`ToPtr` stages the length-prefixed encoding at the arena cursor and
returns that pointer with the encoded size. -/
theorem C7_toWASMValue :
    (∀ b : Bool, toWASMValue (.bool b) = .ok (.i32 (if b then 1 else 0))) ∧
    (∀ v : Int, toWASMValue (.int8 v) = .ok (.i32 v)) ∧
    (∀ v : Nat, toWASMValue (.uint8 v) = .ok (.i32 v)) ∧
    (∀ v : Int, toWASMValue (.int16 v) = .ok (.i32 v)) ∧
    (∀ v : Nat, toWASMValue (.uint16 v) = .ok (.i32 v)) ∧
    (∀ v : Int, toWASMValue (.int32 v) = .ok (.i32 v)) ∧
    (∀ v : Nat, toWASMValue (.uint32 v) = .ok (.i32 (wrap32 v))) ∧
    (∀ v : Int, toWASMValue (.int64 v) = .ok (.i64 v)) ∧
    (∀ v : Nat, toWASMValue (.uint64 v) = .ok (.u64 v)) ∧
    (∀ bits : Nat, toWASMValue (.float32 bits) = .ok (.f32 bits)) ∧
    (∀ bits : Nat, toWASMValue (.float64 bits) = .ok (.f64 bits)) ∧
    (∀ bs : List Nat, toWASMValue (.bytes bs) = .ok (.ascBytes bs)) ∧
    (∀ s : String, toWASMValue (.string s) = .ok (.ascString s)) ∧
    (∀ t : String, toWASMValue (.other t) = .panic (.unhandledType t)) ∧
    (∀ (h : AscHeap) (bs : List Nat),
      (4 + bs.length : Int) ≤ h.arenaFreeSize → 0 ≤ h.arenaStartPtr →
      h.arenaStartPtr + (4 + bs.length) ≤ (h.mem.length : Int) →
      (h.mem.length : Int) < 2 ^ 31 →
      ascBytesToPtr h bs = .ok ((h.arenaStartPtr, (4 + bs.length : Int)),
        { mem := listCopy h.mem h.arenaStartPtr.toNat (ascBytesEnc bs)
          allocator := h.allocator
          arenaStartPtr := h.arenaStartPtr + (4 + bs.length)
          arenaFreeSize := h.arenaFreeSize - (4 + bs.length) }, []) ∧
      extract (listCopy h.mem h.arenaStartPtr.toNat (ascBytesEnc bs))
        h.arenaStartPtr.toNat (4 + bs.length) = ascBytesEnc bs) ∧
    (∀ (h : AscHeap) (s : String),
      (4 + goStrLen s * 2 : Int) ≤ h.arenaFreeSize → 0 ≤ h.arenaStartPtr →
      h.arenaStartPtr + (4 + goStrLen s * 2) ≤ (h.mem.length : Int) →
      (h.mem.length : Int) < 2 ^ 31 →
      ascStringToPtr h s = .ok ((h.arenaStartPtr, (4 + goStrLen s * 2 : Int)),
        { mem := listCopy h.mem h.arenaStartPtr.toNat (ascStringBytes s)
          allocator := h.allocator
          arenaStartPtr := h.arenaStartPtr + (4 + goStrLen s * 2)
          arenaFreeSize := h.arenaFreeSize - (4 + goStrLen s * 2) }, []) ∧
      extract (listCopy h.mem h.arenaStartPtr.toNat (ascStringBytes s))
        h.arenaStartPtr.toNat (4 + goStrLen s * 2) = ascStringBytes s) := by
  refine ⟨fun _ => rfl, fun _ => rfl, fun _ => rfl, fun _ => rfl, fun _ => rfl,
    fun _ => rfl, fun _ => rfl, fun _ => rfl, fun _ => rfl, fun _ => rfl,
    fun _ => rfl, fun _ => rfl, fun _ => rfl, fun _ => rfl, ?_, ?_⟩
  · intro h bs hfree h0 hcap hL
    have hlen := ascBytesEnc_length bs
    have hwrite := AscHeap.Write_inCapacity h (ascBytesEnc bs)
      (by rw [hlen]; push_cast; omega) h0 (by rw [hlen]; push_cast; omega) hL
    have hw32 : wrap32 (4 + (bs.length : Int)) = 4 + bs.length := by
      apply wrap32_eq_self <;> omega
    constructor
    · simp [ascBytesToPtr, hwrite, hlen, hw32]
    · have := @extract_listCopy_self h.mem (ascBytesEnc bs)
        h.arenaStartPtr.toNat (by rw [hlen]; omega)
      rw [← hlen]
      exact this
  · intro h s hfree h0 hcap hL
    have hlen := ascStringBytes_length s
    have hwrite := AscHeap.Write_inCapacity h (ascStringBytes s)
      (by rw [hlen]; push_cast; omega) h0 (by rw [hlen]; push_cast; omega) hL
    have hw32 : wrap32 (4 + (goStrLen s : Int) * 2) = 4 + goStrLen s * 2 := by
      apply wrap32_eq_self <;> omega
    constructor
    · simp [ascStringToPtr, hwrite, hlen, hw32]
    · have := @extract_listCopy_self h.mem (ascStringBytes s)
        h.arenaStartPtr.toNat (by rw [hlen]; omega)
      rw [← hlen]
      exact this

/-- C7 (witness): the staging conjunct for bytes at a concrete heap:
writing `AscBytes [7]` into a fresh 8-byte memory stages the
length-prefixed buffer `[1,0,0,0,7]` at pointer 0 and returns size 5. -/
theorem C7_toWASMValue_witness :
    ascBytesToPtr ⟨List.replicate 8 0, none, 0, 8⟩ [7] =
      .ok ((0, 5), ⟨[1, 0, 0, 0, 7, 0, 0, 0], none, 5, 3⟩, []) := by
  have h := (C7_toWASMValue.2.2.2.2.2.2.2.2.2.2.2.2.2.2.1
    ⟨List.replicate 8 0, none, 0, 8⟩ [7]
    (by norm_num) (by norm_num) (by norm_num) (by norm_num)).1
  rw [h]
  rfl

end C7

section C6

/-- C6: when a `Write` request exceeds the current free capacity and a
guest allocator is configured, the allocator is invoked exactly once —
the call list is exactly `[max(len(bytes), MIN_ARENA_SIZE)]`, a size at
least that — and, provided the allocator returns a pointer whose region
lies in memory, the copy of the bytes lands entirely within the region
beginning at the returned pointer: the final memory holds `bytes` at
`[p, p+len)` and `len ≤ max(len, MIN_ARENA_SIZE)`, so the copy stays
inside `[p, p+newSize)`. -/
theorem C6_allocator_growth (h : AscHeap) (bytes : List Nat)
    (f : Int → Except Unit Int) (p : Int)
    (halloc : h.allocator = some f)
    (hexceed : h.arenaFreeSize < (bytes.length : Int))
    (hsz : (bytes.length : Int) < 2 ^ 31)
    (hret : f (max (bytes.length : Int) MIN_ARENA_SIZE) = .ok p)
    (hp : 0 ≤ p)
    (hcap : p + bytes.length ≤ (h.mem.length : Int))
    (hL : (h.mem.length : Int) < 2 ^ 31) :
    h.Write bytes = .ok (p,
      { mem := listCopy h.mem p.toNat bytes
        allocator := h.allocator
        arenaStartPtr := p + bytes.length
        arenaFreeSize := max (bytes.length : Int) MIN_ARENA_SIZE - bytes.length },
      [max (bytes.length : Int) MIN_ARENA_SIZE]) ∧
    extract (listCopy h.mem p.toNat bytes) p.toNat bytes.length = bytes ∧
    (bytes.length : Int) ≤ max (bytes.length : Int) MIN_ARENA_SIZE := by
  have hmax : (if (bytes.length : Int) < MIN_ARENA_SIZE then MIN_ARENA_SIZE
      else (bytes.length : Int)) = max (bytes.length : Int) MIN_ARENA_SIZE := by
    rw [max_comm]
    rcases lt_or_le (bytes.length : Int) MIN_ARENA_SIZE with hlt | hle
    · rw [if_pos hlt, max_eq_left hlt.le]
    · rw [if_neg hle.not_lt, max_eq_right hle]
  have hwmax : wrap32 (max (bytes.length : Int) MIN_ARENA_SIZE) =
      max (bytes.length : Int) MIN_ARENA_SIZE := by
    apply wrap32_eq_self
    · have : (0 : Int) ≤ max (bytes.length : Int) MIN_ARENA_SIZE :=
        le_max_of_le_right (by norm_num [MIN_ARENA_SIZE])
      omega
    · exact max_lt hsz (by norm_num [MIN_ARENA_SIZE])
  have hwptr : wrap32 (p + bytes.length) = p + bytes.length := by
    apply wrap32_eq_self <;> omega
  refine ⟨?_, extract_listCopy_self (by omega), le_max_left _ _⟩
  simp only [AscHeap.Write, hexceed, if_pos, hmax, halloc, hwmax, hret, hwptr]
  simp [hwptr]
  omega

/-- C6 (witness): a heap with zero free capacity over a 12-byte memory
and an allocator returning pointer 2: writing `[5,6]` invokes the
allocator once with `max(2, 10000) = 10000` and copies the two bytes at
offsets 2 and 3, inside the allocated region. -/
theorem C6_allocator_growth_witness :
    AscHeap.Write ⟨List.replicate 12 0, some fun _ => .ok 2, 0, 0⟩ [5, 6] =
      .ok (2, ⟨[0, 0, 5, 6, 0, 0, 0, 0, 0, 0, 0, 0],
        some fun _ => .ok 2, 4, 9998⟩, [10000]) := by
  have h := (C6_allocator_growth ⟨List.replicate 12 0, some fun _ => .ok 2, 0, 0⟩
    [5, 6] (fun _ => .ok 2) 2 rfl (by norm_num) (by norm_num) rfl (by norm_num)
    (by norm_num) (by norm_num)).1
  rw [h]
  rfl

end C6

section C5Lemmas

/-- Sequential in-bounds copies preserve the memory length. -/
theorem writeAll_length : ∀ (ws : List (List Nat)) (mem : List Nat) (p : Nat),
    p + totalSize ws ≤ mem.length → (writeAll mem p ws).length = mem.length := by
  intro ws
  induction ws with
  | nil => intro mem p _; rfl
  | cons b rest ih =>
    intro mem p hp
    simp [totalSize] at hp
    have hb : p + b.length ≤ mem.length := by omega
    have hlen := listCopy_length hb
    simp only [writeAll]
    rw [ih _ _ (by rw [hlen]; simp [totalSize]; omega), hlen]

/-- Sequential copies at cursor `p` leave regions ending at or before
`p` unchanged. -/
theorem writeAll_untouched : ∀ (ws : List (List Nat)) (mem : List Nat) (p a n : Nat),
    a + n ≤ p → p + totalSize ws ≤ mem.length →
    extract (writeAll mem p ws) a n = extract mem a n := by
  intro ws
  induction ws with
  | nil => intro mem p a n _ _; rfl
  | cons b rest ih =>
    intro mem p a n han hp
    simp [totalSize] at hp
    have hb : p + b.length ≤ mem.length := by omega
    have hlen := listCopy_length hb
    simp only [writeAll]
    rw [ih _ _ _ _ (by omega) (by rw [hlen]; simp [totalSize]; omega)]
    exact extract_listCopy_of_le (by omega) (by omega)

/-- After all sequential copies, the region of the `i`-th write holds
exactly its bytes. -/
theorem writeAll_region : ∀ (ws : List (List Nat)) (mem : List Nat) (p i : Nat),
    i < ws.length → p + totalSize ws ≤ mem.length →
    extract (writeAll mem p ws) (p + sumTake ws i) (ws.getD i []).length = ws.getD i [] := by
  intro ws
  induction ws with
  | nil => intro mem p i hi _; exact absurd hi (by simp)
  | cons b rest ih =>
    intro mem p i hi hp
    simp [totalSize] at hp
    have hb : p + b.length ≤ mem.length := by omega
    have hlen := listCopy_length hb
    match i with
    | 0 =>
      simp only [writeAll, sumTake, Nat.add_zero, List.getD_cons_zero]
      rw [writeAll_untouched rest _ _ _ _ le_rfl (by rw [hlen]; simp [totalSize]; omega)]
      exact extract_listCopy_self hb
    | i + 1 =>
      simp only [writeAll, sumTake, List.getD_cons_succ]
      rw [show p + (b.length + sumTake rest i) = (p + b.length) + sumTake rest i by omega]
      exact ih _ _ _ (by simpa using hi) (by rw [hlen]; simp [totalSize]; omega)

/-- The `i`-th pointer of an in-capacity write sequence starting at `p`
is `p` plus the total size of the preceding writes. -/
theorem arenaOffsets_getD : ∀ (ws : List (List Nat)) (p : Int) (i : Nat),
    i < ws.length → (arenaOffsets p ws).getD i 0 = p + (sumTake ws i : Int) := by
  intro ws
  induction ws with
  | nil => intro p i hi; exact absurd hi (by simp)
  | cons b rest ih =>
    intro p i hi
    match i with
    | 0 => simp [arenaOffsets, sumTake]
    | i + 1 =>
      simp only [arenaOffsets, sumTake, List.getD_cons_succ]
      rw [ih _ _ (by simpa using hi)]
      push_cast
      ring

/-- `sumTake` of the next index adds the `i`-th request's size. -/
theorem sumTake_succ : ∀ (ws : List (List Nat)) (i : Nat), i < ws.length →
    sumTake ws (i + 1) = sumTake ws i + (ws.getD i []).length := by
  intro ws
  induction ws with
  | nil => intro i hi; exact absurd hi (by simp)
  | cons b rest ih =>
    intro i hi
    match i with
    | 0 => simp [sumTake]
    | i + 1 =>
      simp only [sumTake, List.getD_cons_succ]
      rw [ih _ (by simpa using hi)]
      omega

/-- `sumTake` is monotone in the index. -/
theorem sumTake_mono : ∀ (ws : List (List Nat)) (i j : Nat), i ≤ j →
    sumTake ws i ≤ sumTake ws j := by
  intro ws
  induction ws with
  | nil =>
    intro i j _
    match i, j with
    | 0, 0 => exact le_rfl
    | 0, _ + 1 => simp [sumTake]
    | _ + 1, 0 => simp [sumTake]
    | _ + 1, _ + 1 => simp [sumTake]
  | cons b rest ih =>
    intro i j hij
    match i, j with
    | 0, 0 => exact le_rfl
    | 0, j + 1 => simp [sumTake]
    | i + 1, 0 => omega
    | i + 1, j + 1 =>
      simp only [sumTake]
      have := ih i j (by omega)
      omega

/-- `sumTake` over the whole list is bounded by the total size. -/
theorem sumTake_le_totalSize : ∀ (ws : List (List Nat)) (i : Nat),
    sumTake ws i ≤ totalSize ws := by
  intro ws
  induction ws with
  | nil => intro i; match i with | 0 => exact le_rfl | _ + 1 => simp [sumTake, totalSize]
  | cons b rest ih =>
    intro i
    match i with
    | 0 => simp [sumTake]
    | i + 1 =>
      simp only [sumTake, totalSize, List.map_cons, List.sum_cons]
      have := ih i
      simp [totalSize] at this
      omega

/-- A write sequence within the arena's free capacity succeeds,
returning the cursor positions as pointers, copying each buffer in
order, and advancing the cursor / shrinking the free size by the total
byte count. -/
theorem writeSeq_ok : ∀ (ws : List (List Nat)) (h : AscHeap),
    0 ≤ h.arenaStartPtr →
    h.arenaStartPtr + totalSize ws ≤ (h.mem.length : Int) →
    (h.mem.length : Int) < 2 ^ 31 →
    (totalSize ws : Int) ≤ h.arenaFreeSize →
    writeSeq h ws = .ok (arenaOffsets h.arenaStartPtr ws,
      ⟨writeAll h.mem h.arenaStartPtr.toNat ws, h.allocator,
       h.arenaStartPtr + totalSize ws, h.arenaFreeSize - totalSize ws⟩) := by
  intro ws
  induction ws with
  | nil =>
    intro h _ _ _ _
    simp [writeSeq, arenaOffsets, writeAll, totalSize]
  | cons b rest ih =>
    intro h h0 hcap hL hfree
    have htot : (totalSize (b :: rest) : Int) = b.length + totalSize rest := by
      simp [totalSize]
    have hwrite := AscHeap.Write_inCapacity h b (by omega) h0 (by omega) hL
    have hmem1 : (listCopy h.mem h.arenaStartPtr.toNat b).length = h.mem.length := by
      apply listCopy_length
      omega
    have hih := ih { mem := listCopy h.mem h.arenaStartPtr.toNat b
                     allocator := h.allocator
                     arenaStartPtr := h.arenaStartPtr + b.length
                     arenaFreeSize := h.arenaFreeSize - b.length }
      (by simp; omega) (by simp [hmem1]; omega) (by simp [hmem1]; omega) (by simp; omega)
    simp only [writeSeq, hwrite, hih]
    simp only [arenaOffsets, writeAll]
    have hcast : (h.arenaStartPtr + (b.length : Int)).toNat =
        h.arenaStartPtr.toNat + b.length := by omega
    rw [hcast, htot, add_assoc, sub_sub]

end C5Lemmas

section C5

/-- C5: for every sequence of `Write` calls on a fresh arena (cursor 0,
free size = the memory length) whose total size fits the initial free
capacity, the sequence succeeds; each call returns the pre-copy cursor
(`sumTake ws i` for call `i`), copies its bytes there, advances the
cursor and decrements the free size by its byte count (final cursor =
total size, final free = capacity − total); the returned pointers
denote pairwise non-overlapping regions (call `i`'s region ends at or
before call `j`'s start for `i < j`) whose final contents equal the
bytes passed to the corresponding call. -/
theorem C5_arena_write_sequence (mem : List Nat) (ws : List (List Nat))
    (alloc : Option (Int → Except Unit Int))
    (hL : (mem.length : Int) < 2 ^ 31)
    (htot : totalSize ws ≤ mem.length) :
    writeSeq ⟨mem, alloc, 0, (mem.length : Int)⟩ ws =
      .ok (arenaOffsets 0 ws,
        ⟨writeAll mem 0 ws, alloc, (totalSize ws : Int),
         (mem.length : Int) - totalSize ws⟩) ∧
    (∀ i, i < ws.length →
      (arenaOffsets 0 ws).getD i 0 = (sumTake ws i : Int)) ∧
    (∀ i, i < ws.length →
      extract (writeAll mem 0 ws) (sumTake ws i) (ws.getD i []).length = ws.getD i []) ∧
    (∀ i j, i < j → j < ws.length →
      sumTake ws i + (ws.getD i []).length ≤ sumTake ws j) := by
  refine ⟨?_, ?_, ?_, ?_⟩
  · have := writeSeq_ok ws ⟨mem, alloc, 0, (mem.length : Int)⟩
      (by simp) (by simp; omega) (by exact hL) (by simp; omega)
    simpa using this
  · intro i hi
    simpa using arenaOffsets_getD ws 0 i hi
  · intro i hi
    have := writeAll_region ws mem 0 i hi (by omega)
    simpa using this
  · intro i j hij hj
    rw [← sumTake_succ ws i (by omega)]
    exact sumTake_mono ws (i + 1) j hij

/-- C5 (witness): on a fresh 8-byte arena, writing `[1,2]` then `[3]`
returns pointers 0 and 2, leaves memory `[1,2,3,0,0,0,0,0]`, cursor 3
and free size 5. -/
theorem C5_arena_write_sequence_witness :
    writeSeq ⟨List.replicate 8 0, none, 0, 8⟩ [[1, 2], [3]] =
      .ok ([0, 2], ⟨[1, 2, 3, 0, 0, 0, 0, 0], none, 3, 5⟩) := by
  have h := (C5_arena_write_sequence (List.replicate 8 0) [[1, 2], [3]] none
    (by norm_num) (by norm_num [totalSize])).1
  have e : ((List.replicate 8 (0 : Nat)).length : Int) = 8 := by norm_num
  rw [e] at h
  rw [h]
  rfl

end C5

section C9Amended

/-- C9 (amended): in `ReadI32s` and `ReadStrings`, the checked inner
reads do wrap their error with local context and return it upward: the
array-offset read, the length read, each element read (and nested
string decode) on first failure, with deeper element failures
propagated unchanged through the loop; `ReadString` likewise wraps its
length and content reads.  However — as the counterexample shows — the
8-byte read at the decoded array offset has its error assigned to
`err` and never checked, so that one failing inner read is silently
discarded rather than returned. -/
theorem C9_amended (mem : List Nat) (offset : Int) :
    (∀ e, readI32 mem offset = .err e →
      ReadI32s mem offset = .err (.wrap "read i32 array offset" e)) ∧
    (∀ a e, readI32 mem offset = .ok a →
      readI32 mem (wrap32 (offset + 4)) = .err e →
      ReadI32s mem offset = .err (.wrap "read i32 array length" e)) ∧
    (∀ (base : Int) (i n : Nat) (e : WErr),
      readI32 mem (wrap32 (base + 4 * i)) = .err e →
      readI32Elems mem base i (n + 1) =
        .err (.wrap ("read i32 array index #" ++ toString i) e)) ∧
    (∀ (base : Int) (i n : Nat) (v : Int) (e : WErr),
      readI32 mem (wrap32 (base + 4 * i)) = .ok v →
      readI32Elems mem base (i + 1) n = .err e →
      readI32Elems mem base i (n + 1) = .err e) ∧
    (∀ e, readI32 mem offset = .err e →
      ReadStrings mem offset = .err (.wrap "read string array offset" e)) ∧
    (∀ a e, readI32 mem offset = .ok a →
      readI32 mem (wrap32 (offset + 4)) = .err e →
      ReadStrings mem offset = .err (.wrap "read string array length" e)) ∧
    (∀ (base : Int) (i n : Nat) (e : WErr),
      readI32 mem (wrap32 (base + 4 * i)) = .err e →
      readStringElems mem base i (n + 1) =
        .err (.wrap ("read string array index #" ++ toString i ++ " offset") e)) ∧
    (∀ (base : Int) (i n : Nat) (so : Int) (e : WErr),
      readI32 mem (wrap32 (base + 4 * i)) = .ok so →
      ReadString mem so = .err e →
      readStringElems mem base i (n + 1) =
        .err (.wrap ("read string array index #" ++ toString i) e)) ∧
    (∀ e, readI32 mem offset = .err e →
      ReadString mem offset = .err (.wrap "read length" e)) ∧
    (∀ (c : Int) (e : WErr), readI32 mem offset = .ok c →
      segment mem (wrap32 (offset + 4)) (wrap32 (c * 2)) = .err e →
      ReadString mem offset = .err (.wrap "read content" e)) := by
  refine ⟨?_, ?_, ?_, ?_, ?_, ?_, ?_, ?_, ?_, ?_⟩
  · intro e he
    simp [ReadI32s, he]
  · intro a e ha he
    simp [ReadI32s, ha, he]
  · intro base i n e he
    simp [readI32Elems, he]
  · intro base i n v e hv he
    simp [readI32Elems, hv, he]
  · intro e he
    simp [ReadStrings, he]
  · intro a e ha he
    simp [ReadStrings, ha, he]
  · intro base i n e he
    simp [readStringElems, he]
  · intro base i n so e hso he
    simp [readStringElems, hso, he]
  · intro e he
    simp [ReadString, he]
  · intro c e hc he
    simp [ReadString, hc, he]

/-- C9 (witness): on the 2-byte memory `[1,2]` the array-offset read
fails (its 4-byte segment overruns the buffer) and `ReadI32s` returns
that error wrapped with the "read i32 array offset" context. -/
theorem C9_amended_witness :
    ReadI32s [1, 2] 0 = .err (.wrap "read i32 array offset" (.endOutOfBounds 4 2)) :=
  (C9_amended [1, 2] 0).1 (.endOutOfBounds 4 2) (by decide)

end C9Amended

section C1Lemmas

/-- For ASCII strings, `len(h)` equals the character count. -/
theorem goStrLen_ascii {cs : List Char} (h : ∀ c ∈ cs, c.toNat < 128) :
    (cs.map fun c => utf8Size c.toNat).sum = cs.length := by
  induction cs with
  | nil => rfl
  | cons c cs ih =>
    have hc := h c (by simp)
    simp only [List.map_cons, List.sum_cons, List.length_cons]
    rw [ih (fun c hc => h c (by simp [hc]))]
    simp [utf8Size, hc]
    omega

/-- For ASCII strings, the UTF-16 code units are the code points. -/
theorem codeUnits_ascii {cs : List Char} (h : ∀ c ∈ cs, c.toNat < 128) :
    codeUnits cs = cs.map Char.toNat := by
  induction cs with
  | nil => rfl
  | cons c cs ih =>
    have hc := h c (by simp)
    have hlt : c.toNat < 65536 := by omega
    simp only [codeUnits, List.map_cons]
    rw [ih (fun c hc => h c (by simp [hc]))]
    simp [utf16EncodeChar, hlt]

/-- Byte `2i` (resp. `2i+1`) of the code-unit buffer is the low (resp.
high) byte of unit `i`. -/
theorem unitBytes_getD : ∀ (us : List Nat) (i : Nat), i < us.length →
    (unitBytes us).getD (2 * i) 0 = us.getD i 0 % 256 ∧
    (unitBytes us).getD (2 * i + 1) 0 = us.getD i 0 / 256 % 256 := by
  intro us
  induction us with
  | nil => intro i hi; exact absurd hi (by simp)
  | cons u us ih =>
    intro i hi
    match i with
    | 0 => simp [unitBytes]
    | i + 1 =>
      have h2 : 2 * (i + 1) = 2 * i + 1 + 1 := by ring
      have h3 : 2 * (i + 1) + 1 = 2 * i + 1 + 1 + 1 := by ring
      rw [h3, h2]
      simp only [unitBytes, List.getD_cons_succ, List.getD_cons_zero]
      exact ih i (by simpa using hi)

/-- Pairing the code-unit buffer's bytes little-endian recovers the
code units (each below 2¹⁶). -/
theorem pair_unitBytes (us : List Nat) (h : ∀ u ∈ us, u < 65536) :
    ((List.range us.length).map fun i =>
      (unitBytes us).getD (2 * i + 1) 0 % 256 * 256 +
        (unitBytes us).getD (2 * i) 0 % 256) = us := by
  apply List.ext_getElem (by simp)
  intro i h1 h2
  simp only [List.getElem_map, List.getElem_range]
  have hg := unitBytes_getD us i h2
  have hd := List.getD_eq_getElem us 0 h2
  have hlt : us[i] < 65536 := h _ (List.getElem_mem h2)
  rw [hg.1, hg.2, hd]
  omega

/-- `utf16.Decode` is the identity on unit sequences without
surrogates. -/
theorem utf16DecodeNats_id : ∀ (us : List Nat), (∀ u ∈ us, u < 55296) →
    utf16DecodeNats us = us := by
  intro us
  induction us with
  | nil => intro _; rfl
  | cons u us ih =>
    intro h
    have hu := h u (by simp)
    match us with
    | [] => simp [utf16DecodeNats, hu]
    | u2 :: rest =>
      have htail : utf16DecodeNats (u2 :: rest) = u2 :: rest :=
        ih (fun x hx => h x (by simp [hx]))
      simp only [utf16DecodeNats]
      rw [if_pos (Or.inl hu), htail]

/-- Decoding the code points of a string recovers its characters. -/
theorem map_ofNat_toNat (cs : List Char) : (cs.map Char.toNat).map Char.ofNat = cs := by
  induction cs with
  | nil => rfl
  | cons c cs ih => simp [Char.ofNat_toNat, ih]

/-- Copying into a fresh zero buffer yields the source followed by the
remaining zeros. -/
theorem listCopy_replicate_zero (L : Nat) (src : List Nat) (h : src.length ≤ L) :
    listCopy (List.replicate L 0) 0 src = src ++ List.replicate (L - src.length) 0 := by
  unfold listCopy
  rw [List.take_zero, List.nil_append, Nat.zero_add, List.drop_replicate]
  rw [List.take_of_length_le (by simp; omega)]

/-- Unfolding `readI32` over a successful 4-byte segment read. -/
theorem readI32_of_segment {mem : List Nat} {offset : Int} {bs : List Nat}
    (h : segment mem offset 4 = .ok bs) :
    readI32 mem offset = .ok (wrap32 (leUint bs)) := by
  simp only [readI32, h]

/-- Unfolding `ReadString` over a successful length read (with a
non-negative count) and a successful content read. -/
theorem ReadString_of_reads {mem : List Nat} {offset count : Int} {bs : List Nat}
    (h1 : readI32 mem offset = .ok count)
    (h2 : segment mem (wrap32 (offset + 4)) (wrap32 (count * 2)) = .ok bs)
    (h3 : 0 ≤ count) :
    ReadString mem offset = .ok (String.mk ((utf16DecodeNats
      ((List.range count.toNat).map fun i =>
        bs.getD (2 * i + 1) 0 % 256 * 256 + bs.getD (2 * i) 0 % 256)).map Char.ofNat)) := by
  simp only [ReadString, h1, h2]
  rw [if_neg (by omega)]

/-- Unfolding `ascStringToPtr` over a successful arena write. -/
theorem ascStringToPtr_of_write {h : AscHeap} {s : String} {ptr : Int}
    {h1 : AscHeap} {calls : List Int}
    (hw : h.Write (ascStringBytes s) = .ok (ptr, h1, calls)) :
    ascStringToPtr h s = .ok ((ptr, wrap32 (4 + goStrLen s * 2)), h1, calls) := by
  simp only [ascStringToPtr, hw]

/-- The in-bounds success case of `segment`. -/
theorem segment_ok {mem : List Nat} {offset length : Int}
    (hL : (mem.length : Int) < 2 ^ 31)
    (h0 : 0 ≤ offset) (hlen : 0 ≤ length)
    (hend : offset + length ≤ (mem.length : Int))
    (hofflt : offset < (mem.length : Int)) :
    segment mem offset length = .ok (extract mem offset.toNat length.toNat) := by
  have hIL := intLen_eq hL
  have hw : wrap32 (offset + length) = offset + length := by
    apply wrap32_eq_self <;> omega
  simp only [segment, hIL, hw]
  rw [if_neg (by omega), if_neg (by omega), if_neg (by omega)]
  unfold goSlice
  rw [if_pos ⟨h0, by omega, by omega⟩]
  have harith : offset + length - offset = length := by ring
  rw [harith]

end C1Lemmas

section C1

/-- C1 (counterexample): the round trip fails on the BMP string "é"
(code point 233): `AscString.ToPtr` writes `len(h)` — the UTF-8 byte
count, 2 for "é" — as the length prefix, but only one UTF-16 code unit,
so `ReadString` decodes two code units ("é" followed by NUL) and
returns "é\x00", not "é". -/
theorem C1_counterexample :
    ReadString (ascStringBytes (String.mk [Char.ofNat 233])) 0 =
      .ok (String.mk [Char.ofNat 233, Char.ofNat 0]) ∧
    String.mk [Char.ofNat 233, Char.ofNat 0] ≠ String.mk [Char.ofNat 233] := by
  decide

/-- C1 (amended): the round trip holds for ASCII strings — exactly
those whose UTF-8 byte length equals their UTF-16 code-unit count, so
the prefix `len(h)` really is the code-unit count.  Part 1: decoding
the written buffer (followed by any further memory `rest`) at offset 0
returns the string, provided memory extends past the 4-byte header
(automatic for nonempty strings).  Part 2: `AscString.ToPtr` on a fresh
arena of capacity `L` stages exactly that buffer at pointer 0 and
returns size `4 + len(h)*2`, so encode-then-decode through the arena
reproduces the string. -/
theorem C1_ascii_roundtrip (s : String) (rest : List Nat)
    (hascii : ∀ c ∈ s.data, c.toNat < 128)
    (hmem : 4 < (ascStringBytes s ++ rest).length)
    (hL : ((ascStringBytes s ++ rest).length : Int) < 2 ^ 31) :
    ReadString (ascStringBytes s ++ rest) 0 = .ok s ∧
    (∀ (alloc : Option (Int → Except Unit Int)) (L : Nat),
      (ascStringBytes s).length ≤ L → (L : Int) < 2 ^ 31 →
      ascStringToPtr ⟨List.replicate L 0, alloc, 0, (L : Int)⟩ s =
        .ok ((0, (4 + goStrLen s * 2 : Int)),
          ⟨ascStringBytes s ++ List.replicate (L - (ascStringBytes s).length) 0, alloc,
           ((ascStringBytes s).length : Int), (L : Int) - ((ascStringBytes s).length : Int)⟩,
          [])) := by
  have hn : goStrLen s = s.data.length := goStrLen_ascii hascii
  have hcu : codeUnits s.data = s.data.map Char.toNat := codeUnits_ascii hascii
  have hculen : (codeUnits s.data).length = goStrLen s := by
    rw [hcu, hn]
    simp
  have hbody_len : (unitBytes (codeUnits s.data)).length = goStrLen s * 2 := by
    rw [unitBytes_length, hculen]
    ring
  have hrep : goStrLen s * 2 - (unitBytes (codeUnits s.data)).length = 0 := by
    rw [hbody_len]
    omega
  have hasc : ascStringBytes s =
      le32 (goStrLen s % 2 ^ 32) ++ unitBytes (codeUnits s.data) := by
    simp [ascStringBytes, hrep]
  have hmlen : (ascStringBytes s ++ rest).length =
      4 + goStrLen s * 2 + rest.length := by
    rw [hasc]
    simp [le32, hbody_len]
    omega
  have hLn : (ascStringBytes s ++ rest).length < 2 ^ 31 := by exact_mod_cast hL
  rw [hmlen] at hLn
  have hmem' : 4 < 4 + goStrLen s * 2 + rest.length := by rw [hmlen] at hmem; exact hmem
  have hn30 : goStrLen s < 2 ^ 30 := by omega
  constructor
  · -- decode part
    have hseg4 : segment (ascStringBytes s ++ rest) 0 4 =
        .ok (le32 (goStrLen s % 2 ^ 32)) := by
      rw [segment_ok hL (by norm_num) (by norm_num) (by rw [hmlen]; push_cast; omega)
        (by rw [hmlen]; push_cast; omega)]
      congr 1
    have hmod : goStrLen s % 2 ^ 32 = goStrLen s := Nat.mod_eq_of_lt (by omega)
    have hread : readI32 (ascStringBytes s ++ rest) 0 = .ok (goStrLen s : Int) := by
      rw [readI32_of_segment hseg4, leUint_le32, hmod, hmod,
        wrap32_eq_self (by omega) (by omega)]
    have hw4 : wrap32 (0 + 4) = 4 := by decide
    have hw2n : wrap32 ((goStrLen s : Int) * 2) = (goStrLen s : Int) * 2 := by
      apply wrap32_eq_self <;> omega
    have hsegB : segment (ascStringBytes s ++ rest) 4 ((goStrLen s : Int) * 2) =
        .ok (unitBytes (codeUnits s.data)) := by
      rw [segment_ok hL (by norm_num) (by omega) (by rw [hmlen]; push_cast; omega)
        (by rw [hmlen]; push_cast; omega)]
      have hext : extract (ascStringBytes s ++ rest) ((4 : Int)).toNat
          (((goStrLen s : Int) * 2)).toNat = unitBytes (codeUnits s.data) := by
        have ht : (((goStrLen s : Int) * 2)).toNat = goStrLen s * 2 := by omega
        show List.take (((goStrLen s : Int) * 2)).toNat
          (List.drop ((4 : Int)).toNat (ascStringBytes s ++ rest)) = _
        rw [ht, show ((4 : Int)).toNat = 4 from rfl, hasc, List.append_assoc,
          List.drop_left' (by simp [le32])]
        exact List.take_left' hbody_len
      rw [hext]
    have hunits_lt : ∀ u ∈ codeUnits s.data, u < 65536 := by
      rw [hcu]
      intro u hu
      simp only [List.mem_map] at hu
      obtain ⟨c, hc, rfl⟩ := hu
      have := hascii c hc
      omega
    have hcount : ((goStrLen s : Int)).toNat = (codeUnits s.data).length := by
      rw [hculen]
      omega
    have hchars : ((List.range ((goStrLen s : Int)).toNat).map fun i =>
        (unitBytes (codeUnits s.data)).getD (2 * i + 1) 0 % 256 * 256 +
          (unitBytes (codeUnits s.data)).getD (2 * i) 0 % 256) = codeUnits s.data := by
      rw [hcount]
      exact pair_unitBytes _ hunits_lt
    have hdecode : utf16DecodeNats (codeUnits s.data) = codeUnits s.data := by
      apply utf16DecodeNats_id
      intro u hu
      have hu' := hunits_lt u hu
      rw [hcu] at hu
      simp only [List.mem_map] at hu
      obtain ⟨c, hc, rfl⟩ := hu
      have := hascii c hc
      omega
    have h2 : segment (ascStringBytes s ++ rest) (wrap32 (0 + 4))
        (wrap32 ((goStrLen s : Int) * 2)) = .ok (unitBytes (codeUnits s.data)) := by
      rw [hw4, hw2n]
      exact hsegB
    rw [ReadString_of_reads hread h2 (by omega), hchars, hdecode, hcu, map_ofNat_toNat]
  · -- staging part
    intro alloc L hcapL hL31
    have hwrite : AscHeap.Write ⟨List.replicate L 0, alloc, 0, (L : Int)⟩
        (ascStringBytes s) = .ok (0,
          ⟨listCopy (List.replicate L 0) ((0 : Int)).toNat (ascStringBytes s), alloc,
           0 + ((ascStringBytes s).length : Int),
           (L : Int) - ((ascStringBytes s).length : Int)⟩, []) :=
      AscHeap.Write_inCapacity ⟨List.replicate L 0, alloc, 0, (L : Int)⟩
        (ascStringBytes s) (by simp; exact_mod_cast hcapL) (by norm_num)
        (by simp; exact_mod_cast hcapL) (by simp; omega)
    have hw32 : wrap32 (4 + (goStrLen s : Int) * 2) = 4 + goStrLen s * 2 := by
      apply wrap32_eq_self <;> omega
    have hcopy : listCopy (List.replicate L 0) ((0 : Int)).toNat (ascStringBytes s) =
        ascStringBytes s ++ List.replicate (L - (ascStringBytes s).length) 0 := by
      rw [show ((0 : Int)).toNat = 0 from rfl]
      exact listCopy_replicate_zero L (ascStringBytes s) hcapL
    rw [ascStringToPtr_of_write hwrite, hw32, hcopy, zero_add]

/-- C1 (witness): the amended round trip at the ASCII string "abc" with
one byte of trailing memory: decoding yields "abc" back, and `ToPtr`
into a fresh 11-byte arena stages `[3,0,0,0, 97,0, 98,0, 99,0]` at
pointer 0 with size 10. -/
theorem C1_ascii_roundtrip_witness :
    ReadString (ascStringBytes "abc" ++ [0]) 0 = .ok "abc" ∧
    ascStringToPtr ⟨List.replicate 11 0, none, 0, ((11 : Nat) : Int)⟩ "abc" =
      .ok ((0, 10), ⟨[3, 0, 0, 0, 97, 0, 98, 0, 99, 0, 0], none, 10, 1⟩, []) := by
  have h := C1_ascii_roundtrip "abc" [0] (by decide) (by decide) (by decide)
  exact ⟨h.1, (h.2 none 11 (by decide) (by decide)).trans (by rfl)⟩

end C1

end WasmRuntime
